/-
Verification of the BeaverDev tip-gated RAG bot (repository Crisvond-hnt/Botaday6).

Shallow embedding of the TypeScript sources into Lean 4:
  * JavaScript numbers are modelled as ℚ (all comparisons settled by the claims
    are far from float64 rounding boundaries; where this matters it is argued
    at the theorem).
  * JavaScript strings are modelled as `List Char`.
  * Fallible external collaborators (price feed fetch, embedding service,
    JSON.parse / RegExp builtins) are passed in as explicit parameters.
-/
import Mathlib

/-! ## Tip validation — src/index.ts, `bot.onTip`, lines 391-424

The handler converts the tip's wei amount to ETH (`Number(event.amount) / 1e18`),
computes `minTipETH = minTipUSD * (1 - marginPercent) / ethPrice`
and rejects the tip when `ethAmount < minTipETH`. -/

/-- `1e18`, the wei-per-ETH scale constant used in `bot.onTip`. -/
def weiPerEth : ℚ := 10 ^ 18

/-- `const minTipUSD = 0.50` (src/index.ts line 403). -/
def minTipUSD : ℚ := 1 / 2

/-- `const marginPercent = 0.05` (src/index.ts line 404). -/
def marginPercent : ℚ := 1 / 20

/-- `const minTipWithMargin = minTipUSD * (1 - marginPercent)` (line 405). -/
def minTipWithMargin : ℚ := minTipUSD * (1 - marginPercent)

/-- `const minTipETH = minTipWithMargin / ethPrice` (line 406). -/
def minTipETH (ethPrice : ℚ) : ℚ := minTipWithMargin / ethPrice

/-- `const ethAmount = Number(event.amount) / 1e18` (line 395). -/
def ethAmountOfWei (amount : ℕ) : ℚ := (amount : ℚ) / weiPerEth

/-- The acceptance decision of `bot.onTip` line 410:
`if (ethAmount < minTipETH) { ... return }` — the tip is accepted iff that
rejection branch is not taken. -/
def tipAccepted (amount : ℕ) (ethPrice : ℚ) : Bool :=
  if ethAmountOfWei amount < minTipETH ethPrice then false else true

/-! ## ETH price oracle — src/index.ts, `getEthPrice`, lines 100-144

State is the module-level `ethPriceCache : EthPriceCache | null`; the network
fetch is passed in as `fetchResult : Option ℚ` (`none` models a non-2xx
response, a thrown fetch error, or a body whose `ethereum.usd` is missing,
non-numeric or `0` — all of which land in the `catch`).  The function returns
the price, the new cache state, and whether a network fetch was attempted. -/

/-- `interface EthPriceCache { price: number; timestamp: number }` (lines 88-91). -/
structure EthPriceCache where
  price : ℚ
  timestamp : ℕ
deriving DecidableEq, Repr

/-- `const PRICE_CACHE_DURATION = 5 * 60 * 1000` (line 94). -/
def PRICE_CACHE_DURATION : ℕ := 5 * 60 * 1000

/-- The `try { fetch ... } catch { ... }` tail of `getEthPrice` (lines 109-143):
on fetch success cache and return the fresh price; on failure return the stale
cached price when one exists, else the hardcoded `3000` fallback. -/
def getEthPriceFetch (cache : Option EthPriceCache) (now : ℕ) (fetchResult : Option ℚ) :
    ℚ × Option EthPriceCache × Bool :=
  match fetchResult with
  | some p => (p, some ⟨p, now⟩, true)
  | none =>
    match cache with
    | some c => (c.price, some c, true)
    | none => (3000, none, true)

/-- `getEthPrice` (lines 100-144).  The leading guard (lines 104-107) returns the
cached price without any network access while the snapshot is within the TTL.
`now - c.timestamp` is ℕ-truncated subtraction; a JS negative difference and a
truncated 0 fall on the same side of `< PRICE_CACHE_DURATION`, so the branch
taken is identical. -/
def getEthPrice (cache : Option EthPriceCache) (now : ℕ) (fetchResult : Option ℚ) :
    ℚ × Option EthPriceCache × Bool :=
  match cache with
  | some c =>
    if now - c.timestamp < PRICE_CACHE_DURATION then
      (c.price, some c, false)
    else
      getEthPriceFetch (some c) now fetchResult
  | none => getEthPriceFetch none now fetchResult

/-! ## Pending-question store — src/index.ts, lines 75-83

`const pendingQuestions = new Map<string, PendingQuestion>()`, written via
`pendingQuestions.set(userId, ...)` (lines 250, 279, 337) and
`pendingQuestions.delete(event.userId)` (line 442).  A JS `Map` is modelled as
an association list with the `Map.set` semantics (replace the value in place
when the key exists, append otherwise) and `Map.delete`.  Note the
`PendingQuestion` interface of the shipped code has **no** `tipReceived`
field. -/

/-- `interface PendingQuestion` (src/index.ts lines 75-81). -/
structure PendingQuestion where
  userId : List Char
  question : List Char
  threadId : List Char
  channelId : List Char
  timestamp : ℕ
deriving DecidableEq, Repr

instance : Inhabited PendingQuestion := ⟨⟨[], [], [], [], 0⟩⟩

/-- The `pendingQuestions` map, as an association list keyed by userId. -/
abbrev PendingStore := List (List Char × PendingQuestion)

/-- JS `Map.set`: replace in place when the key exists, else append. -/
def mapSet : PendingStore → List Char → PendingQuestion → PendingStore
  | [], u, q => [(u, q)]
  | (k, v) :: t, u, q => if k = u then (u, q) :: t else (k, v) :: mapSet t u q

/-- JS `Map.delete`: remove the entry for the key, if any. -/
def mapDelete : PendingStore → List Char → PendingStore
  | [], _ => []
  | (k, v) :: t, u => if k = u then t else (k, v) :: mapDelete t u

/-- JS `Map.get`: the value stored for the key, if any. -/
def mapGet : PendingStore → List Char → Option PendingQuestion
  | [], _ => none
  | (k, v) :: t, u => if k = u then some v else mapGet t u

/-- The keys of the store. -/
def storeKeys (s : PendingStore) : List (List Char) := s.map Prod.fst

/-- States of `pendingQuestions` reachable by the shipped handlers: it starts
empty; `bot.onMessage` (mention and thread-reply branches) and the `/ask`
command park a question with `pendingQuestions.set`; the tail of `bot.onTip`
removes the entry with `pendingQuestions.delete` after the answer attempt.
No other code touches the map. -/
inductive ReachableStore : PendingStore → Prop
  | init : ReachableStore []
  | park (s : PendingStore) (u : List Char) (q : PendingQuestion) :
      ReachableStore s → ReachableStore (mapSet s u q)
  | answered (s : PendingStore) (u : List Char) :
      ReachableStore s → ReachableStore (mapDelete s u)

/-- A sample pending question used by concrete witnesses. -/
def samplePending : PendingQuestion :=
  { userId := [ 'a' ], question := [ 'q' ], threadId := [ 't' ],
    channelId := [ 'c' ], timestamp := 0 }

/-! ## Tip handler — src/index.ts, `bot.onTip`, lines 363-444

The handler: (1) ignores tips whose lower-cased receiver address matches
neither `bot.botId` nor `bot.appAddress`; (2) thanks users without a pending
question; (3) rejects under-sized tips leaving the entry untouched; (4) on a
qualifying tip sends a confirmation, awaits `respondWithKnowledge` — whose
internal `try/catch` swallows every failure (lines 220-228) and whose result
is `void` — and then **unconditionally** runs `pendingQuestions.delete`
(line 442).  The `generationSucceeded` parameter records whether the answer
attempt succeeded; it is deliberately unused, mirroring the fact that the
source ignores the attempt's outcome. -/

/-- JS `String.prototype.toLowerCase` (ASCII fragment used by the addresses). -/
def jsLower (s : List Char) : List Char := s.map Char.toLower

/-- The receiver check of `bot.onTip` lines 371-373. -/
def tipIsForBot (botId appAddress receiver : List Char) : Bool :=
  (jsLower receiver == jsLower botId) || (jsLower receiver == jsLower appAddress)

/-- Which user-visible branch `bot.onTip` finished in. -/
inductive TipOutcome
  | ignored
  | thanksNoPending
  | rejectedTooSmall
  | answered
deriving DecidableEq, Repr

set_option linter.unusedVariables false in
/-- `bot.onTip` (lines 363-444) as a transition on the pending store. -/
def onTip (botId appAddress : List Char) (store : PendingStore)
    (userId : List Char) (amount : ℕ) (receiver : List Char)
    (ethPrice : ℚ) (generationSucceeded : Bool) : PendingStore × TipOutcome :=
  if tipIsForBot botId appAddress receiver = false then
    (store, .ignored)
  else
    match mapGet store userId with
    | none => (store, .thanksNoPending)
    | some _ =>
      if tipAccepted amount ethPrice = false then
        (store, .rejectedTooSmall)
      else
        (mapDelete store userId, .answered)

/-! ## Chunker — src/rag.ts, `BeaverDevRAG`, lines 31-164

JS strings are `List Char`.  `chunkDocument` splits on `/^## /m`, trims each
section, takes line 0 as the title, re-joins the remaining lines as the body,
and either emits the body whole (length ≤ 1500) or routes it through
`splitLargeSection(body, 1500)`, which accumulates `"\n\n"`-separated
paragraphs. -/

/-- JS `String.prototype.trim` (drop whitespace from both ends). -/
def jsTrim (s : List Char) : List Char :=
  ((s.dropWhile fun c => c.isWhitespace).reverse.dropWhile fun c => c.isWhitespace).reverse

/-- `content.split('\n\n')` (src/rag.ts line 76), JS leftmost non-overlapping
split on the two-character separator; accumulator-based worker. -/
def splitOnNlNlGo : List Char → List Char → List (List Char)
  | acc, '\n' :: '\n' :: rest => acc.reverse :: splitOnNlNlGo [] rest
  | acc, c :: rest => splitOnNlNlGo (c :: acc) rest
  | acc, [] => [acc.reverse]

/-- `content.split('\n\n')`. -/
def splitOnNlNl (s : List Char) : List (List Char) := splitOnNlNlGo [] s

/-- `content.split(/^## /m)` (src/rag.ts line 35), worker: cut whenever `"## "`
follows a newline, consuming only the three marker characters (the newline
stays with the previous segment, as the zero-width `^` anchor dictates). -/
def splitSectionsGo : List Char → List Char → List (List Char)
  | acc, '\n' :: '#' :: '#' :: ' ' :: rest => (acc.reverse ++ ['\n']) :: splitSectionsGo [] rest
  | acc, c :: rest => splitSectionsGo (c :: acc) rest
  | acc, [] => [acc.reverse]

/-- `content.split(/^## /m)`: the `^` anchor also matches at position 0. -/
def splitSections : List Char → List (List Char)
  | '#' :: '#' :: ' ' :: rest => [] :: splitSectionsGo [] rest
  | content => splitSectionsGo [] content

/-- `splitLargeSection` (src/rag.ts lines 74-94), the paragraph-accumulating
loop over `content.split('\n\n')`.  Mirrors the JS exactly: the length check
`(currentChunk + paragraph).length > maxLength && currentChunk` does **not**
count the two-character `'\n\n'` separator that the append then inserts. -/
def slsGo (maxLength : ℕ) : List (List Char) → List Char → List (List Char)
  | [], currentChunk => if currentChunk ≠ [] then [jsTrim currentChunk] else []
  | p :: ps, currentChunk =>
    if (currentChunk ++ p).length > maxLength ∧ currentChunk ≠ [] then
      jsTrim currentChunk :: slsGo maxLength ps p
    else
      slsGo maxLength ps (if currentChunk = [] then p else currentChunk ++ '\n' :: '\n' :: p)

/-- `splitLargeSection(content, maxLength)` (src/rag.ts lines 74-94). -/
def splitLargeSection (content : List Char) (maxLength : ℕ) : List (List Char) :=
  slsGo maxLength (splitOnNlNl content) []

/-- `[a-z0-9]`, the character class kept by `sanitizeId`. -/
def isLowerAlnum (c : Char) : Bool :=
  (decide ('a' ≤ c) && decide (c ≤ 'z')) || (decide ('0' ≤ c) && decide (c ≤ '9'))

/-- `.replace(/[^a-z0-9]+/g, '_')` worker: each maximal run of excluded
characters collapses to a single underscore.  The fuel argument (initialised
to the string length, ample since every step consumes at least one character)
keeps the recursion structural so that the definition evaluates by reduction. -/
def collapseNonAlnumGo : ℕ → List Char → List Char
  | 0, _ => []
  | _, [] => []
  | fuel + 1, c :: rest =>
    if isLowerAlnum c then
      c :: collapseNonAlnumGo fuel rest
    else
      '_' :: collapseNonAlnumGo fuel (rest.dropWhile (fun d => !isLowerAlnum d))

/-- `.replace(/[^a-z0-9]+/g, '_')`. -/
def collapseNonAlnum (s : List Char) : List Char := collapseNonAlnumGo s.length s

/-- `.replace(/^_|_$/g, '')`: with the `g` flag the anchors each match at most
once, so exactly one leading and one trailing underscore are removed. -/
def stripOuterUnderscores (s : List Char) : List Char :=
  let s1 := match s with
    | '_' :: rest => rest
    | other => other
  if s1.getLast? = some '_' then s1.dropLast else s1

/-- `sanitizeId` (src/rag.ts lines 150-156): lowercase, collapse non-alphanumeric
runs to `_`, strip one outer underscore on each side, truncate to 50. -/
def sanitizeId (title : List Char) : List Char :=
  (stripOuterUnderscores (collapseNonAlnum (title.map Char.toLower))).take 50

/-- `\w` of the keyword regex: `[A-Za-z0-9_]`. -/
def isWordChar (c : Char) : Bool :=
  (decide ('a' ≤ c) && decide (c ≤ 'z')) || (decide ('A' ≤ c) && decide (c ≤ 'Z'))
    || (decide ('0' ≤ c) && decide (c ≤ '9')) || (c == '_')

/-- `[a-zA-Z_]`, the identifier-start class of the keyword regex. -/
def isIdentStart (c : Char) : Bool :=
  (decide ('a' ≤ c) && decide (c ≤ 'z')) || (decide ('A' ≤ c) && decide (c ≤ 'Z'))
    || (c == '_')

/-- The `functionPattern.exec` loop of `extractKeywords` (src/rag.ts lines
103-107): successive non-overlapping matches of
`/\b([a-zA-Z_][a-zA-Z0-9_]*)\s*\(/g`, collecting the captured identifiers.
The boolean argument tracks whether the previous character was a word
character (in which case `\b` cannot match here).  Greedy matching is exact:
every backtracked shorter identifier is followed by a word character, which
`\s*\(` can never match. -/
def scanFuncCallsGo : ℕ → Bool → List Char → List (List Char)
  | 0, _, _ => []
  | _, _, [] => []
  | fuel + 1, prevWord, c :: rest =>
    if !prevWord && isIdentStart c then
      if ((rest.dropWhile isWordChar).dropWhile (fun d => d.isWhitespace)).head? = some '(' then
        (c :: rest.takeWhile isWordChar)
          :: scanFuncCallsGo fuel false
              ((rest.dropWhile isWordChar).dropWhile (fun d => d.isWhitespace)).tail
      else
        scanFuncCallsGo fuel (isWordChar c) rest
    else
      scanFuncCallsGo fuel (isWordChar c) rest

/-- The `functionPattern.exec` loop, started with no preceding word character.
The fuel (the string length) is ample: every step consumes at least one
character. -/
def scanFuncCalls (content : List Char) : List (List Char) :=
  scanFuncCallsGo content.length false content

/-- The fixed `townsTerms` vocabulary (src/rag.ts lines 110-135). -/
def townsTerms : List (List Char) :=
  ["bot".toList, "handler".toList, "message".toList, "channel".toList,
   "thread".toList, "space".toList, "event".toList, "webhook".toList,
   "onMessage".toList, "onSlashCommand".toList, "sendMessage".toList,
   "makeTownsBot".toList, "threadId".toList, "channelId".toList,
   "userId".toList, "eventId".toList, "mentions".toList, "reaction".toList,
   "permission".toList, "RAG".toList, "OpenAI".toList, "embedding".toList,
   "SDK".toList, "protocol".toList]

/-- JS `Set.add` on insertion-ordered string sets (dedup keeps first
occurrence, `Array.from` yields insertion order). -/
def setAdd (s : List (List Char)) (x : List Char) : List (List Char) :=
  if x ∈ s then s else s ++ [x]

/-- `extractKeywords` (src/rag.ts lines 99-145): call-site identifiers in match
order, then the domain vocabulary terms whose lowercase form occurs in the
lowercased content, deduplicated in insertion order. -/
def extractKeywords (content : List Char) : List (List Char) :=
  let funcMatches := scanFuncCalls content
  let lower := content.map Char.toLower
  let termMatches := townsTerms.filter (fun t => decide ((t.map Char.toLower) <:+: lower))
  (funcMatches ++ termMatches).foldl setAdd []

/-- A chunk record — `interface KnowledgeChunk` (src/types/knowledge.ts lines
16-22).  The TS field `section` is a Lean keyword; it is named `sectionTitle`
here. -/
structure KnowledgeChunk where
  id : List Char
  content : List Char
  source : List Char
  sectionTitle : List Char
  keywords : List (List Char)
deriving DecidableEq, Repr

instance : Inhabited KnowledgeChunk := ⟨⟨[], [], [], [], []⟩⟩

/-- `.split('\n')` worker, JS semantics (an empty string yields `[""]`). -/
def jsSplitNlGo : List Char → List Char → List (List Char)
  | acc, [] => [acc.reverse]
  | acc, '\n' :: rest => acc.reverse :: jsSplitNlGo [] rest
  | acc, c :: rest => jsSplitNlGo (c :: acc) rest

/-- JS `String.prototype.split('\n')`. -/
def jsSplitNl (s : List Char) : List (List Char) := jsSplitNlGo [] s

/-- `section.split('\n')` of the trimmed section (src/rag.ts line 41). -/
def sectionLines (sec : List Char) : List (List Char) := jsSplitNl (jsTrim sec)

/-- `lines[0] || 'Introduction'` (src/rag.ts line 42). -/
def sectionTitleOf (sec : List Char) : List Char :=
  match (sectionLines sec).head? with
  | some l => if l = [] then "Introduction".toList else l
  | none => "Introduction".toList

/-- `lines.slice(1).join('\n').trim()` (src/rag.ts line 43). -/
def sectionBody (sec : List Char) : List Char :=
  jsTrim (List.intercalate ['\n'] ((sectionLines sec).drop 1))

/-- The per-section part of the `chunkDocument` loop (src/rag.ts lines 37-66):
skip sections that trim to empty; split bodies longer than 1500 characters
into sub-chunks with `_<index>` id suffixes; emit short bodies whole. -/
def chunkSection (source sec : List Char) : List KnowledgeChunk :=
  if jsTrim sec = [] then []
  else
    let title := sectionTitleOf sec
    let body := sectionBody sec
    if body.length > 1500 then
      (splitLargeSection body 1500).enum.map (fun ip =>
        { id := source ++ ':' :: (sanitizeId title ++ '_' :: (Nat.repr ip.1).toList),
          content := ip.2, source := source, sectionTitle := title,
          keywords := extractKeywords ip.2 })
    else
      [{ id := source ++ ':' :: sanitizeId title, content := body, source := source,
         sectionTitle := title, keywords := extractKeywords body }]

/-- `chunkDocument(content, source)` (src/rag.ts lines 31-69). -/
def chunkDocument (content source : List Char) : List KnowledgeChunk :=
  ((splitSections content).map (chunkSection source)).flatten

/-- The 1498-character first paragraph of the C6 counterexample. -/
def c6Para1 : List Char := List.replicate 1498 'a'

/-- The 1502-character two-paragraph section body of the C6 counterexample:
1498 `'a'`s, a blank line, then `"bb"`. -/
def c6Body : List Char := c6Para1 ++ '\n' :: '\n' :: 'b' :: 'b' :: []

/-- A document with one section whose 1502-character body is two paragraphs:
1498 `'a'`s, a blank line, then `"bb"`. -/
def c6Doc : List Char := '#' :: '#' :: ' ' :: 'T' :: '\n' :: c6Body

/-! ## Corpus fingerprint and embedding cache — src/config/knowledge.ts line 52,
src/rag/index.ts lines 119-153 -/

/-- `interface EmbeddedChunk extends KnowledgeChunk` (src/types/knowledge.ts
lines 24-27): a chunk plus its embedding vector and the transient
`similarity?` score. -/
structure EmbeddedChunk where
  id : List Char
  content : List Char
  source : List Char
  sectionTitle : List Char
  keywords : List (List Char)
  embedding : List ℚ
  similarity : Option ℚ
deriving DecidableEq, Repr

instance : Inhabited EmbeddedChunk := ⟨⟨[], [], [], [], [], [], none⟩⟩

/-- The "simple checksum" of `loadKnowledgeBase` (src/config/knowledge.ts line
52): the template string
`${content.length}-${content.substring(0,100).replace(/\s/g,'').length}` —
the byte length, a dash, and the count of non-whitespace characters among the
first 100 characters. -/
def checksumOf (content : List Char) : List Char :=
  (Nat.repr content.length).toList
    ++ '-' :: (Nat.repr ((content.take 100).filter (fun c => !c.isWhitespace)).length).toList

/-- `interface EmbeddingCache` (src/rag/index.ts lines 119-124). -/
structure EmbeddingCache where
  version : List Char
  checksum : List Char
  chunks : List EmbeddedChunk
  createdAt : List Char
deriving DecidableEq, Repr

/-- `loadCache(expectedChecksum)` (src/rag/index.ts lines 129-153).
`stored = none` models a missing cache file or a `JSON.parse` failure — both
return `null` via the early return / `catch`.  Otherwise the cached chunks are
returned iff the stored checksum equals the expected one. -/
def loadCache (stored : Option EmbeddingCache) (expectedChecksum : List Char) :
    Option (List EmbeddedChunk) :=
  match stored with
  | none => none
  | some c => if c.checksum = expectedChecksum then some c.chunks else none

/-! ## Cosine similarity — src/rag/index.ts lines 80-85 and the identical
cached variant src/prompt/agent.ts lines 454-459 -/

/-- JS division: `x / y` with `y = 0` yields `NaN` or `±Infinity` — never a
real number; modelled as `none`. -/
def divJS (x y : ℚ) : Option ℚ := if y = 0 then none else some (x / y)

/-- `a.reduce((sum, val) => sum + val * val, 0)`. -/
def sumSq (a : List ℚ) : ℚ := a.foldl (fun s v => s + v * v) 0

/-- `a.reduce((sum, value, index) => sum + value * b[index], 0)` for
equal-length vectors. -/
def dotJS (a b : List ℚ) : ℚ := (a.zip b).foldl (fun s vw => s + vw.1 * vw.2) 0

/-- `cosineSimilarity(a, b)`: dot product over the product of the Euclidean
norms, with **no** guard on the denominator.  `Math.sqrt` is an external
builtin passed as the `sqrt` parameter; the theorems assume only its values at
the points used (`sqrt 0 = 0`, positive on positives). -/
def cosineSimilarity (sqrt : ℚ → ℚ) (a b : List ℚ) : Option ℚ :=
  divJS (dotJS a b) (sqrt (sumSq a) * sqrt (sumSq b))

/-- A concrete instantiation of the square-root collaborator for the closed
statements below: the identity function, which agrees with `Math.sqrt` at the
only inputs (`0` and `1`) produced by the concrete vectors used. -/
def sqrtAt01 : ℚ → ℚ := fun x => x

/-! ## Retrieval — src/rag/index.ts, `retrieveRelevantChunks`, lines 63-75
(the cached variant, src/prompt/agent.ts lines 437-449, is identical)

Scoring assigns `similarity := cosineSimilarity(queryEmbedding, chunk.embedding)`
to a copy of every chunk (`scoreChunks` below, with the unguarded
`cosineSimilarity`, whose `none` result models the JS `NaN` of a zero-norm
division).  The JS `scoredChunks.sort((a, b) => (b.similarity ?? 0) -
(a.similarity ?? 0))` is a stable sort (ES2019) — but only when the comparator
is consistent.  `?? 0` catches `null`/`undefined`, **not** `NaN`: a `NaN`
similarity makes the subtraction `NaN`, the comparator inconsistent, and the
resulting order implementation-defined (ES2019 §23.1.3.27); moreover `NaN`
compares false with every number, so no arrangement containing a `NaN`-scored
chunk next to another chunk is ordered by non-increasing similarity.  When
every similarity is an actual number the comparator is consistent and the
stable sort by a key is the unique key-descending reordering that keeps
equal-key elements in input order, which is what the insertion sort below
computes; `retrieveRelevantChunks` takes that real-valued score assignment as
the `sim` parameter, and the bridge to the code's cosine is stated in the
retrieval theorem. -/

/-- `x.similarity ?? 0`, the comparator's key. -/
def simKey (c : EmbeddedChunk) : ℚ := c.similarity.getD 0

/-- `{ ...chunk, similarity: <score> }` (src/rag/index.ts lines 68-71). -/
def setSim (sim : EmbeddedChunk → ℚ) (c : EmbeddedChunk) : EmbeddedChunk :=
  { c with similarity := some (sim c) }

/-- One step of the stable descending sort: insert after all elements with a
key at least as large (so equal keys keep input order). -/
def insertDesc (x : EmbeddedChunk) : List EmbeddedChunk → List EmbeddedChunk
  | [] => [x]
  | y :: t => if simKey x ≤ simKey y then y :: insertDesc x t else x :: y :: t

/-- The stable sort by non-increasing `simKey`. -/
def sortDesc (l : List EmbeddedChunk) : List EmbeddedChunk :=
  l.foldl (fun acc x => insertDesc x acc) []

/-- `retrieveRelevantChunks(query, limit)`: score, sort descending by
similarity, truncate to `limit`. -/
def retrieveRelevantChunks (sim : EmbeddedChunk → ℚ) (index : List EmbeddedChunk)
    (limit : ℕ) : List EmbeddedChunk :=
  (sortDesc (index.map (setSim sim))).take limit

/-- The scoring map the code actually runs (src/rag/index.ts lines 68-71):
`this.embeddedChunks.map((chunk) => ({ ...chunk, similarity:
this.cosineSimilarity(queryEmbedding, chunk.embedding) }))`.  In the copies
this produces, the `similarity` field is always freshly assigned, so `none`
here means exactly the `NaN` of the unguarded zero-norm division — never the
`undefined` of an absent field. -/
def scoreChunks (sqrt : ℚ → ℚ) (queryEmbedding : List ℚ)
    (index : List EmbeddedChunk) : List EmbeddedChunk :=
  index.map (fun c => { c with similarity := cosineSimilarity sqrt queryEmbedding c.embedding })

/-- JS `x <= y` on similarity values: false whenever either operand is `NaN`
(modelled as `none`), the usual order on actual numbers. -/
def simLeJS (x y : Option ℚ) : Bool :=
  match x, y with
  | some a, some b => decide (a ≤ b)
  | _, _ => false

/-- "Ordered by non-increasing similarity" in the JS reading: every later
element's similarity is `<=` every earlier one's, with `NaN` comparing false
against everything. -/
def sortedBySimDesc (l : List EmbeddedChunk) : Prop :=
  l.Pairwise (fun p q => simLeJS q.similarity p.similarity = true)

/-- A chunk whose stored embedding is the zero vector (embeddings are stored
verbatim from the service response; nothing normalises or rejects them). -/
def c5ZeroVecChunk : EmbeddedChunk :=
  ⟨['z'], ['z'], ['s'], ['t'], [], [0, 0], none⟩

/-- A chunk whose stored embedding is a unit vector. -/
def c5UnitVecChunk : EmbeddedChunk :=
  ⟨['u'], ['u'], ['s'], ['t'], [], [1, 0], none⟩

/-! ## Index building — src/rag/index.ts lines 21-41 / 91-104 (the variant the
entry point wires in: src/index.ts line 13 imports `createKnowledgeIndex` from
`./rag/index`) versus src/prompt/agent.ts lines 379-415 (the cached variant).

The embedding service (`openai.embeddings.create`, same order in as out) is
the `embed` parameter.  Both builders return the embedded chunks together
with the number of embedding-service calls made. -/

/-- The `for (let i = 0; i < chunks.length; i += batchSize)` slicing with
`batchSize = 100` (src/rag/index.ts lines 25-27); fuel keeps the recursion
structural (one batch consumes at least one chunk). -/
def batches100Go : ℕ → List KnowledgeChunk → List (List KnowledgeChunk)
  | 0, _ => []
  | _, [] => []
  | fuel + 1, c :: rest => ((c :: rest).take 100) :: batches100Go fuel ((c :: rest).drop 100)

/-- The batch decomposition of the chunk list. -/
def batches100 (chunks : List KnowledgeChunk) : List (List KnowledgeChunk) :=
  batches100Go chunks.length chunks

/-- `{ ...batch[j], embedding: embeddings[j] }` (src/rag/index.ts lines 31-34). -/
def toEmbedded (c : KnowledgeChunk) (v : List ℚ) : EmbeddedChunk :=
  { id := c.id, content := c.content, source := c.source,
    sectionTitle := c.sectionTitle, keywords := c.keywords,
    embedding := v, similarity := none }

/-- `KnowledgeIndex.buildIndex` of the wired variant (src/rag/index.ts lines
21-41): every batch goes to the embedding service — the cache is **never**
consulted (`loadCache` lives in the same file but has no caller on this
path).  Second component: the number of embedding-service calls. -/
def buildIndex (embed : List (List Char) → List (List ℚ))
    (chunks : List KnowledgeChunk) : List EmbeddedChunk × ℕ :=
  (((batches100 chunks).map (fun batch =>
      (batch.zip (embed (batch.map (fun c => c.content)))).map
        (fun cv => toEmbedded cv.1 cv.2))).flatten,
   (batches100 chunks).length)

/-- `KnowledgeIndex.buildIndex` of the cached variant (src/prompt/agent.ts
lines 379-415): `loadCache(this.checksum)` first; on a hit adopt the cached
chunks — zero embedding calls; on a miss run the identical batch loop (and
`saveCache` afterwards, which does not affect the returned index). -/
def buildIndexCached (embed : List (List Char) → List (List ℚ))
    (stored : Option EmbeddingCache) (checksum : List Char)
    (chunks : List KnowledgeChunk) : List EmbeddedChunk × ℕ :=
  match loadCache stored checksum with
  | some cached => (cached, 0)
  | none => buildIndex embed chunks

/-! ## Response validation — src/prompt/agent.ts, `validateResponse`, lines
162-224, and the delivery path of `respondWithKnowledge`, src/index.ts lines
193-219.

External JS builtins are parameters: `parseJson` models `JSON.parse` combined
with the field checks' view of the result (`answer` is `some s` iff the parsed
object has a string `answer` field with text `s`; `references` is `some l` iff
the `references` field is an array), `codeBlockMatch` models the
` ```(json)?…``` ` extraction regex, `answerMatch` the broken-JSON `"answer"`
extraction regex, and `cleanup` the three formatting `replace` calls of
`respondWithKnowledge`.  An oracle returning `none` models a failed parse
(a thrown exception) / a regex with no match. -/

/-- The characters `U+007B` and `U+007D` (left and right curly brace). -/
def braceOpen : Char := Char.ofNat 123

/-- See `braceOpen`. -/
def braceClose : Char := Char.ofNat 125

/-- The character `U+0022` (double quote). -/
def quoteChar : Char := Char.ofNat 34

/-- What the `try` block of `validateResponse` observes of `JSON.parse`'s
result. -/
structure JsonPayload where
  answer : Option (List Char)
  references : Option (List (List Char))

/-- `interface AIResponse` (src/unnamed/part_001). -/
structure AIResponse where
  answer : List Char
  references : List (List Char)
deriving DecidableEq, Repr

/-- `indexOf` worker. -/
def jsIndexOfGo (c : Char) : ℕ → List Char → Option ℕ
  | _, [] => none
  | i, d :: rest => if d = c then some i else jsIndexOfGo c (i + 1) rest

/-- JS `String.prototype.indexOf` for a single character (`-1` becomes
`none`). -/
def jsIndexOf (c : Char) (s : List Char) : Option ℕ := jsIndexOfGo c 0 s

/-- JS `String.prototype.lastIndexOf` for a single character. -/
def jsLastIndexOf (c : Char) (s : List Char) : Option ℕ :=
  (jsIndexOf c s.reverse).map (fun i => s.length - 1 - i)

/-- The `try` block of `validateResponse` (src/prompt/agent.ts lines 163-193)
as an `Option`: `none` means an exception was thrown (a failed `JSON.parse`,
or the explicit `throw` on a missing/non-string/empty `answer` field — the
`!parsed.answer` check also rejects the empty string).  Method 1 extracts a
fenced code block; method 2 narrows to the outermost brace span when the
trimmed text does not already start with a brace. -/
def tryParseResponse (parseJson : List Char → Option JsonPayload)
    (codeBlockMatch : List Char → Option (List Char)) (content : List Char) :
    Option AIResponse :=
  let j0 := jsTrim content
  let j1 := match codeBlockMatch j0 with
    | some inner => jsTrim inner
    | none => j0
  let j2 :=
    if j1.head? = some braceOpen then j1
    else
      match jsIndexOf braceOpen j1, jsLastIndexOf braceClose j1 with
      | some jsonStart, some jsonEnd =>
        if jsonStart < jsonEnd then (j1.drop jsonStart).take (jsonEnd + 1 - jsonStart)
        else j1
      | _, _ => j1
  match parseJson j2 with
  | none => none
  | some p =>
    match p.answer with
    | none => none
    | some a =>
      if a = [] then none
      else some { answer := jsTrim a, references := p.references.getD [] }

/-- `.replace(/\\n/g, '\n')` (first fallback-2 unescape). -/
def replaceEscapedNl : List Char → List Char
  | [] => []
  | [c] => [c]
  | c1 :: c2 :: rest =>
    if c1 = '\\' ∧ c2 = 'n' then '\n' :: replaceEscapedNl rest
    else c1 :: replaceEscapedNl (c2 :: rest)

/-- `.replace(/\\"/g, '"')` (second fallback-2 unescape). -/
def replaceEscapedQuote : List Char → List Char
  | [] => []
  | [c] => [c]
  | c1 :: c2 :: rest =>
    if c1 = '\\' ∧ c2 = quoteChar then quoteChar :: replaceEscapedQuote rest
    else c1 :: replaceEscapedQuote (c2 :: rest)

/-- The fixed error-sentinel answer (src/prompt/agent.ts line 220). -/
def wonkyAnswer : List Char :=
  ("🦫 Oops! My circuits got crossed. The response format was wonky. Could you try asking that again?").toList

/-- `validateResponse` (src/prompt/agent.ts lines 162-224): the `try` block,
then the `catch` chain — plain-text fallback (no brace anywhere and nonempty),
regex answer extraction with unescaping, and finally the sentinel with empty
references.  Total by construction, mirroring the top-level `try/catch`. -/
def validateResponse (parseJson : List Char → Option JsonPayload)
    (codeBlockMatch answerMatch : List Char → Option (List Char))
    (content : List Char) : AIResponse :=
  match tryParseResponse parseJson codeBlockMatch content with
  | some r => r
  | none =>
    if content ≠ [] ∧ content.contains braceOpen = false
        ∧ content.contains braceClose = false then
      { answer := jsTrim content, references := [] }
    else
      match answerMatch content with
      | some a => { answer := replaceEscapedQuote (replaceEscapedNl a), references := [] }
      | none => { answer := wonkyAnswer, references := [] }

/-- `[...new Set(payload.references)]`: dedup keeping first occurrence. -/
def dedupKeepFirst (l : List (List Char)) : List (List Char) := l.foldl setAdd []

/-- `uniqueRefs` (src/index.ts line 205): dedup then `.slice(0, 3)`. -/
def uniqueRefs (refs : List (List Char)) : List (List Char) := (dedupKeepFirst refs).take 3

/-- `referencesText` (src/index.ts lines 206-208). -/
def referencesText (refs : List (List Char)) : List Char :=
  if uniqueRefs refs = [] then []
  else ("\n\n---\n📚 *Sources: ").toList
    ++ List.intercalate (", ").toList (uniqueRefs refs) ++ ['*']

/-- The message `respondWithKnowledge` sends on its normal path (src/index.ts
lines 196-213): the cleaned-up trimmed answer followed by the references
suffix.  There is no check whatsoever against the sentinel — whatever
`validateResponse` returns is delivered as the answer. -/
def respondMessage (cleanup : List Char → List Char)
    (parseJson : List Char → Option JsonPayload)
    (codeBlockMatch answerMatch : List Char → Option (List Char))
    (content : List Char) : List Char :=
  let payload := validateResponse parseJson codeBlockMatch answerMatch content
  cleanup (jsTrim payload.answer) ++ referencesText payload.references

/-! ### Theorems for claim C2 -/

/-- C2 (counterexample): the claim states that a tip of `0.000158` asset units
(`158000000000000` wei) is accepted at price 3000; the code rejects it, because
`0.000158 < 0.475/3000 = 0.0001583…`.  (The float64 computation agrees with
this exact-rational one: the gap to the threshold is ≈ 3.3·10⁻⁷ relative,
about 12 ulp at this magnitude, far above the ≤ 2 ulp rounding error of the
three float operations involved.) -/
theorem tipAccepted_158000000000000_rejected :
    tipAccepted 158000000000000 3000 = false := by
  norm_num [tipAccepted, ethAmountOfWei, minTipETH, minTipWithMargin, minTipUSD,
    marginPercent, weiPerEth]

/-- C2 (amended): with `minimumUSD = 0.50`, `margin = 0.05` and price 3000,
the acceptance boundary is `0.475/3000` asset units = `158333333333333.3̅` wei,
so validation accepts a tip iff its wei amount is at least `158333333333334`;
in particular `0.000157` **and** `0.000158` asset units are rejected and
`0.000159` is accepted. -/
theorem tipAccepted_boundary :
    (∀ amount : ℕ, tipAccepted amount 3000 = true ↔ 158333333333334 ≤ amount)
    ∧ tipAccepted 157000000000000 3000 = false
    ∧ tipAccepted 158000000000000 3000 = false
    ∧ tipAccepted 159000000000000 3000 = true := by
  refine ⟨?_, ?_, ?_, ?_⟩
  · intro amount
    have hiff : ethAmountOfWei amount < minTipETH 3000 ↔ amount < 158333333333334 := by
      rw [ethAmountOfWei, minTipETH, minTipWithMargin, minTipUSD, marginPercent, weiPerEth]
      rw [div_lt_div_iff₀ (by norm_num) (by norm_num)]
      rw [show ((1:ℚ)/2 * (1 - 1/20) * 10 ^ 18 = 475000000000000000) by norm_num]
      constructor
      · intro h
        by_contra hn
        push_neg at hn
        have : (158333333333334 : ℚ) ≤ (amount : ℚ) := by exact_mod_cast hn
        nlinarith
      · intro h
        have h' : amount ≤ 158333333333333 := by omega
        have : (amount : ℚ) ≤ 158333333333333 := by exact_mod_cast h'
        nlinarith
    rw [tipAccepted]
    constructor
    · intro h
      by_contra hn
      push_neg at hn
      have : ethAmountOfWei amount < minTipETH 3000 := hiff.mpr (by omega)
      simp [this] at h
    · intro h
      have : ¬ ethAmountOfWei amount < minTipETH 3000 := by
        intro hc
        exact absurd (hiff.mp hc) (by omega)
      simp [this]
  · norm_num [tipAccepted, ethAmountOfWei, minTipETH, minTipWithMargin, minTipUSD,
      marginPercent, weiPerEth]
  · norm_num [tipAccepted, ethAmountOfWei, minTipETH, minTipWithMargin, minTipUSD,
      marginPercent, weiPerEth]
  · norm_num [tipAccepted, ethAmountOfWei, minTipETH, minTipWithMargin, minTipUSD,
      marginPercent, weiPerEth]

/-! ### Theorem for claim C8 -/

/-- C8: `getEthPrice` always returns a usable positive price (given the price
feed's boundary contract that a successfully parsed price is positive — the
parse already rejects `0` via the `!price` check), and follows the documented
state machine: fresh cache ⇒ cached price, no fetch; stale or absent cache ⇒
one fetch, replacing the snapshot on success, falling back to the stale
snapshot on failure, and to the constant `3000` when no snapshot exists.
Totality ("never raises") holds by construction: the body is a total match
mirroring the source's try/catch. -/
theorem getEthPrice_contract (cache : Option EthPriceCache) (now : ℕ) (fetchResult : Option ℚ)
    (hc : ∀ c, cache = some c → 0 < c.price)
    (hf : ∀ p, fetchResult = some p → 0 < p) :
    0 < (getEthPrice cache now fetchResult).1
    ∧ (∀ c, cache = some c → now - c.timestamp < PRICE_CACHE_DURATION →
        getEthPrice cache now fetchResult = (c.price, some c, false))
    ∧ (∀ p, fetchResult = some p →
        (∀ c, cache = some c → ¬ now - c.timestamp < PRICE_CACHE_DURATION) →
        getEthPrice cache now fetchResult = (p, some ⟨p, now⟩, true))
    ∧ (fetchResult = none → ∀ c, cache = some c →
        ¬ now - c.timestamp < PRICE_CACHE_DURATION →
        getEthPrice cache now fetchResult = (c.price, some c, true))
    ∧ (fetchResult = none → cache = none →
        getEthPrice cache now fetchResult = (3000, none, true)) := by
  refine ⟨?_, ?_, ?_, ?_, ?_⟩
  · match hcache : cache with
    | some c =>
      have hcp := hc c rfl
      by_cases hfresh : now - c.timestamp < PRICE_CACHE_DURATION
      · simp [getEthPrice, hfresh, hcp]
      · match hfetch : fetchResult with
        | some p => simpa [getEthPrice, getEthPriceFetch, hfresh] using hf p rfl
        | none => simp [getEthPrice, getEthPriceFetch, hfresh, hcp]
    | none =>
      match hfetch : fetchResult with
      | some p => simpa [getEthPrice, getEthPriceFetch] using hf p rfl
      | none => norm_num [getEthPrice, getEthPriceFetch]
  · rintro c rfl hfresh
    simp [getEthPrice, hfresh]
  · rintro p rfl hstale
    match hcache : cache with
    | some c =>
      have := hstale c rfl
      simp [getEthPrice, getEthPriceFetch, this]
    | none => simp [getEthPrice, getEthPriceFetch]
  · rintro rfl c rfl hstale
    simp [getEthPrice, getEthPriceFetch, hstale]
  · rintro rfl rfl
    simp [getEthPrice, getEthPriceFetch]

/-- C8 (witness): with no prior snapshot and a failing fetch, `getEthPrice`
returns the positive fallback price 3000 and attempts exactly one fetch. -/
theorem getEthPrice_contract_witness :
    0 < (getEthPrice none 0 none).1 ∧ getEthPrice none 0 none = (3000, none, true) :=
  ⟨(getEthPrice_contract none 0 none (by intro c h; cases h) (by intro p h; cases h)).1,
   (getEthPrice_contract none 0 none (by intro c h; cases h)
      (by intro p h; cases h)).2.2.2.2 rfl rfl⟩

theorem storeKeys_mapSet (s : PendingStore) (u : List Char) (q : PendingQuestion) :
    storeKeys (mapSet s u q)
      = if u ∈ storeKeys s then storeKeys s else storeKeys s ++ [u] := by
  induction s with
  | nil => simp [mapSet, storeKeys]
  | cons hd t ih =>
    obtain ⟨k, v⟩ := hd
    by_cases h : k = u
    · subst h
      simp [mapSet, storeKeys]
    · have hne : ¬ u = k := fun hh => h hh.symm
      by_cases hm : u ∈ storeKeys t
      · simp only [storeKeys] at ih hm ⊢
        simp [mapSet, h, ih, hm, hne]
      · simp only [storeKeys] at ih hm ⊢
        simp [mapSet, h, ih, hm, hne]

theorem storeKeys_mapSet_nodup (s : PendingStore) (u : List Char) (q : PendingQuestion)
    (hs : (storeKeys s).Nodup) : (storeKeys (mapSet s u q)).Nodup := by
  rw [storeKeys_mapSet]
  by_cases hm : u ∈ storeKeys s
  · simp only [if_pos hm]
    exact hs
  · simp [hm, List.nodup_append, hs]

theorem mapDelete_sublist (s : PendingStore) (u : List Char) :
    (mapDelete s u).Sublist s := by
  induction s with
  | nil => simp [mapDelete]
  | cons hd t ih =>
    obtain ⟨k, v⟩ := hd
    by_cases h : k = u
    · simp only [mapDelete, if_pos h]
      exact List.Sublist.cons (k, v) (List.Sublist.refl t)
    · simpa [mapDelete, h] using ih.cons₂ (k, v)

theorem storeKeys_mapDelete_nodup (s : PendingStore) (u : List Char)
    (hs : (storeKeys s).Nodup) : (storeKeys (mapDelete s u)).Nodup :=
  List.Nodup.sublist ((mapDelete_sublist s u).map Prod.fst) hs

theorem reachable_nodup (s : PendingStore) (h : ReachableStore s) :
    (storeKeys s).Nodup := by
  induction h with
  | init => simp [storeKeys]
  | park s u q _ ih => exact storeKeys_mapSet_nodup s u q ih
  | answered s u _ ih => exact storeKeys_mapDelete_nodup s u ih

theorem mapGet_mapSet_self (s : PendingStore) (u : List Char) (q : PendingQuestion) :
    mapGet (mapSet s u q) u = some q := by
  induction s with
  | nil => simp [mapSet, mapGet]
  | cons hd t ih =>
    obtain ⟨k, v⟩ := hd
    by_cases h : k = u
    · simp [mapSet, mapGet, h]
    · simp [mapSet, mapGet, h, ih]

theorem mapGet_mapSet_other (s : PendingStore) (u v : List Char) (q : PendingQuestion)
    (h : v ≠ u) : mapGet (mapSet s u q) v = mapGet s v := by
  have huv : ¬ u = v := fun hh => h hh.symm
  induction s with
  | nil => simp [mapSet, mapGet, huv]
  | cons hd t ih =>
    obtain ⟨k, w⟩ := hd
    by_cases hk : k = u
    · subst hk
      simp [mapSet, mapGet, huv]
    · simp only [mapSet, if_neg hk, mapGet]
      rw [ih]

theorem mapGet_mem_storeKeys (t : PendingStore) (k : List Char) (w : PendingQuestion)
    (hget : mapGet t k = some w) : k ∈ storeKeys t := by
  induction t with
  | nil => simp [mapGet] at hget
  | cons hd t' ih =>
    obtain ⟨k', v'⟩ := hd
    by_cases h' : k' = k
    · simp [storeKeys, h']
    · simp only [mapGet, if_neg h'] at hget
      simp only [storeKeys, List.map_cons, List.mem_cons]
      exact Or.inr (ih hget)

theorem mapGet_mapDelete_self (s : PendingStore) (u : List Char)
    (hs : (storeKeys s).Nodup) : mapGet (mapDelete s u) u = none := by
  induction s with
  | nil => simp [mapDelete, mapGet]
  | cons hd t ih =>
    obtain ⟨k, v⟩ := hd
    simp only [storeKeys, List.map_cons, List.nodup_cons] at hs
    by_cases h : k = u
    · subst h
      cases hget : mapGet t k with
      | none => simp [mapDelete, hget]
      | some w => exact absurd (mapGet_mem_storeKeys t k w hget) hs.1
    · simp [mapDelete, mapGet, h, ih hs.2]

/-! ### Theorem for claim C9 -/

/-- C9: in every reachable state of `pendingQuestions` each user has at most
one entry (the key list is duplicate-free); `set` (parking) unconditionally
overwrites the user's entry — afterwards the lookup yields only the new
question, other users are untouched — and after the tip handler's
`delete` (run after answer delivery) the user's entry is absent. -/
theorem pendingQuestions_invariant :
    (∀ s, ReachableStore s → (storeKeys s).Nodup)
    ∧ (∀ s u q, mapGet (mapSet s u q) u = some q)
    ∧ (∀ s u v q, v ≠ u → mapGet (mapSet s u q) v = mapGet s v)
    ∧ (∀ s u, ReachableStore s → mapGet (mapDelete s u) u = none) :=
  ⟨reachable_nodup, mapGet_mapSet_self, fun s u v q h => mapGet_mapSet_other s u v q h,
   fun s u h => mapGet_mapDelete_self s u (reachable_nodup s h)⟩

/-- C9 (witness): parking twice for the same user leaves a single,
duplicate-free entry holding the second question, and deleting empties it. -/
theorem pendingQuestions_invariant_witness :
    (storeKeys (mapSet (mapSet [] [ 'a' ] samplePending)
        [ 'a' ] { samplePending with timestamp := 1 })).Nodup
    ∧ mapGet (mapSet (mapSet [] [ 'a' ] samplePending)
        [ 'a' ] { samplePending with timestamp := 1 }) [ 'a' ]
      = some { samplePending with timestamp := 1 }
    ∧ mapGet (mapDelete (mapSet [] [ 'a' ] samplePending) [ 'a' ]) [ 'a' ] = none :=
  ⟨pendingQuestions_invariant.1 _
      (ReachableStore.park _ _ _ (ReachableStore.park _ _ _ ReachableStore.init)),
   pendingQuestions_invariant.2.1 _ _ _,
   pendingQuestions_invariant.2.2.2 _ _ (ReachableStore.park _ _ _ ReachableStore.init)⟩

/-! ### Theorem for claim C1 -/

/-- C1 (code bug): for a tip that passes the address and amount checks for a
user with a pending question, `bot.onTip` removes the user's entry
**whatever** the answer-generation outcome — the update is literally
independent of `generationSucceeded`, because `respondWithKnowledge` returns
`void`, swallows its own errors, and line 442 deletes unconditionally.  The
repository's own `Tip Refund & Retry System` document instead promises that
on failure the entry is kept with `tipReceived = true` (a field the shipped
`PendingQuestion` interface does not even declare) so the next message is a
free retry. -/
theorem onTip_deletes_pending_even_on_failure
    (botId appAddress : List Char) (store : PendingStore)
    (userId : List Char) (amount : ℕ) (receiver : List Char) (ethPrice : ℚ)
    (hfor : tipIsForBot botId appAddress receiver = true)
    (hpend : (mapGet store userId).isSome = true)
    (hacc : tipAccepted amount ethPrice = true) :
    (∀ generationSucceeded,
      onTip botId appAddress store userId amount receiver ethPrice generationSucceeded
        = (mapDelete store userId, .answered))
    ∧ (ReachableStore store →
        ∀ generationSucceeded, mapGet
          (onTip botId appAddress store userId amount receiver
            ethPrice generationSucceeded).1 userId = none) := by
  have hbranch : ∀ g, onTip botId appAddress store userId amount receiver ethPrice g
      = (mapDelete store userId, .answered) := by
    intro g
    cases hget : mapGet store userId with
    | none => rw [hget] at hpend; simp at hpend
    | some q => simp [onTip, hfor, hget, hacc]
  refine ⟨hbranch, ?_⟩
  intro hreach g
  rw [hbranch g]
  exact mapGet_mapDelete_self store userId (reachable_nodup store hreach)

theorem jsTrim_length_le (s : List Char) : (jsTrim s).length ≤ s.length := by
  unfold jsTrim
  calc ((s.dropWhile fun c => c.isWhitespace).reverse.dropWhile
          fun c => c.isWhitespace).reverse.length
      ≤ (s.dropWhile fun c => c.isWhitespace).reverse.length := by
        rw [List.length_reverse]
        exact (List.dropWhile_sublist _).length_le
    _ ≤ s.length := by
        rw [List.length_reverse]
        exact (List.dropWhile_sublist _).length_le

/-- C1 (witness): the failing input made concrete — user `"a"` has a pending
question, tips `159000000000000` wei (≈ $0.477 at price 3000, accepted) to the
bot's address, generation **fails** (`generationSucceeded = false`), and the
pending entry is nonetheless gone, so the next message restarts the paid flow. -/
theorem onTip_deletes_pending_even_on_failure_witness :
    mapGet (onTip [ 'B' ] [ 'X' ] (mapSet [] [ 'a' ] samplePending)
      [ 'a' ] 159000000000000 [ 'b' ] 3000 false).1 [ 'a' ] = none :=
  (onTip_deletes_pending_even_on_failure [ 'B' ] [ 'X' ]
      (mapSet [] [ 'a' ] samplePending) [ 'a' ] 159000000000000 [ 'b' ] 3000
      (by decide)
      (by rw [mapGet_mapSet_self]; rfl)
      (by norm_num [tipAccepted, ethAmountOfWei, minTipETH, minTipWithMargin,
        minTipUSD, marginPercent, weiPerEth])).2
    (ReachableStore.park _ _ _ ReachableStore.init) false

/-! ### Theorems for claim C6 -/

theorem snd_mem_of_mem_enum {α : Type} {l : List α} {ia : ℕ × α} (h : ia ∈ l.enum) :
    ia.2 ∈ l := by
  have : ia.2 ∈ l.enum.map Prod.snd := List.mem_map_of_mem Prod.snd h
  simpa [List.enum_map_snd] using this

theorem slsGo_mem (maxLength : ℕ) (all : List (List Char)) :
    ∀ (paras : List (List Char)) (cur : List Char),
      (∀ p ∈ paras, p ∈ all) →
      (cur = [] ∨ cur ∈ all ∨ cur.length ≤ maxLength + 2) →
      ∀ s ∈ slsGo maxLength paras cur,
        s.length ≤ maxLength + 2 ∨ ∃ p ∈ all, s = jsTrim p := by
  intro paras
  induction paras with
  | nil =>
    intro cur _ hcur s hs
    by_cases h : cur = []
    · simp [slsGo, h] at hs
    · simp only [slsGo, if_pos (by simpa using h), List.mem_singleton] at hs
      subst hs
      rcases hcur with rfl | hmem | hlen
      · exact absurd rfl h
      · exact Or.inr ⟨cur, hmem, rfl⟩
      · exact Or.inl (le_trans (jsTrim_length_le cur) hlen)
  | cons p ps ih =>
    intro cur hps hcur s hs
    have hpall : p ∈ all := hps p (List.mem_cons_self p ps)
    have hpsall : ∀ q ∈ ps, q ∈ all := fun q hq => hps q (List.mem_cons_of_mem p hq)
    by_cases hcond : (cur ++ p).length > maxLength ∧ cur ≠ []
    · rw [slsGo, if_pos hcond] at hs
      rcases List.mem_cons.mp hs with rfl | hs'
      · rcases hcur with rfl | hmem | hlen
        · exact absurd rfl hcond.2
        · exact Or.inr ⟨cur, hmem, rfl⟩
        · exact Or.inl (le_trans (jsTrim_length_le cur) hlen)
      · exact ih p hpsall (Or.inr (Or.inl hpall)) s hs'
    · rw [slsGo, if_neg hcond] at hs
      refine ih _ hpsall ?_ s hs
      by_cases hnil : cur = []
      · rw [if_pos hnil]
        exact Or.inr (Or.inl hpall)
      · rw [if_neg hnil]
        have hle : (cur ++ p).length ≤ maxLength := by
          by_contra hgt
          push_neg at hgt
          exact hcond ⟨hgt, hnil⟩
      -- appended chunk: cur ++ "\n\n" ++ p has length (cur ++ p).length + 2
        right; right
        simp only [List.length_append, List.length_cons] at hle ⊢
        omega

theorem splitLargeSection_mem (content : List Char) (maxLength : ℕ) :
    ∀ s ∈ splitLargeSection content maxLength,
      s.length ≤ maxLength + 2 ∨ ∃ p ∈ splitOnNlNl content, s = jsTrim p := by
  intro s hs
  exact slsGo_mem maxLength (splitOnNlNl content) (splitOnNlNl content) []
    (fun _ h => h) (Or.inl rfl) s hs

theorem chunkSection_content_bound (source sec : List Char) :
    ∀ c ∈ chunkSection source sec,
      c.content.length ≤ 1502 ∨ ∃ p ∈ splitOnNlNl (sectionBody sec), c.content = jsTrim p := by
  intro c hc
  by_cases hsec : jsTrim sec = []
  · simp [chunkSection, hsec] at hc
  · rw [chunkSection, if_neg hsec] at hc
    by_cases hlen : (sectionBody sec).length > 1500
    · simp only [if_pos hlen, List.mem_map] at hc
      obtain ⟨ip, hip, rfl⟩ := hc
      have h2 : ip.2 ∈ splitLargeSection (sectionBody sec) 1500 := snd_mem_of_mem_enum hip
      simpa using splitLargeSection_mem (sectionBody sec) 1500 ip.2 h2
    · simp only [if_neg hlen, List.mem_singleton] at hc
      subst hc
      left
      simpa using by omega

/-- C6 (amended): chunks are produced either whole (a body of at most 1500
characters, or a single `"\n\n"`-paragraph of the body kept unsplit however
long it is) or by paragraph accumulation, whose guard
`(currentChunk + paragraph).length > maxLength` omits the two-character
`'\n\n'` separator added on append — so every multi-paragraph chunk is
bounded by 1502 = 1500 + 2 characters, not by 1500 as claimed. -/
theorem chunkDocument_content_bound (doc source : List Char) :
    ∀ c ∈ chunkDocument doc source,
      c.content.length ≤ 1502
      ∨ ∃ sec ∈ splitSections doc, ∃ p ∈ splitOnNlNl (sectionBody sec),
          c.content = jsTrim p := by
  intro c hc
  simp only [chunkDocument, List.mem_flatten, List.mem_map] at hc
  obtain ⟨l, ⟨sec, hsec, rfl⟩, hcl⟩ := hc
  rcases chunkSection_content_bound source sec c hcl with h | ⟨p, hp, hcp⟩
  · exact Or.inl h
  · exact Or.inr ⟨sec, hsec, p, hp, hcp⟩

theorem jsTrim_eq_self (s : List Char)
    (h1 : ∀ c, s.head? = some c → c.isWhitespace = false)
    (h2 : ∀ c, s.getLast? = some c → c.isWhitespace = false) : jsTrim s = s := by
  have d1 : s.dropWhile (fun c => c.isWhitespace) = s := by
    cases s with
    | nil => rfl
    | cons a t => exact List.dropWhile_cons_of_neg (by simp [h1 a rfl])
  have d2 : s.reverse.dropWhile (fun c => c.isWhitespace) = s.reverse := by
    cases hr : s.reverse with
    | nil => rfl
    | cons a t =>
      have ha : s.getLast? = some a := by
        rw [← List.head?_reverse, hr]
        rfl
      rw [← hr]
      rw [hr]
      exact List.dropWhile_cons_of_neg (by simp [h2 a ha])
  rw [jsTrim, d1, d2, List.reverse_reverse]

theorem replicate_append_cons_a (m : ℕ) (acc : List Char) :
    List.replicate m 'a' ++ 'a' :: acc = 'a' :: (List.replicate m 'a' ++ acc) := by
  rw [show ('a' :: acc) = ['a'] ++ acc from rfl, ← List.append_assoc,
    ← List.replicate_succ' m 'a', List.replicate_succ, List.cons_append]

theorem splitSectionsGo_skip_a :
    ∀ (n : ℕ) (acc l : List Char),
      splitSectionsGo acc (List.replicate n 'a' ++ l)
        = splitSectionsGo (List.replicate n 'a' ++ acc) l := by
  intro n
  induction n with
  | zero => intro acc l; simp
  | succ m ih =>
    intro acc l
    rw [List.replicate_succ, List.cons_append]
    show splitSectionsGo ('a' :: acc) (List.replicate m 'a' ++ l) = _
    rw [ih ('a' :: acc) l, replicate_append_cons_a, List.cons_append]

theorem jsSplitNlGo_skip_a :
    ∀ (n : ℕ) (acc l : List Char),
      jsSplitNlGo acc (List.replicate n 'a' ++ l)
        = jsSplitNlGo (List.replicate n 'a' ++ acc) l := by
  intro n
  induction n with
  | zero => intro acc l; simp
  | succ m ih =>
    intro acc l
    rw [List.replicate_succ, List.cons_append]
    show jsSplitNlGo ('a' :: acc) (List.replicate m 'a' ++ l) = _
    rw [ih ('a' :: acc) l, replicate_append_cons_a, List.cons_append]

theorem splitOnNlNlGo_skip_a :
    ∀ (n : ℕ) (acc l : List Char),
      splitOnNlNlGo acc (List.replicate n 'a' ++ l)
        = splitOnNlNlGo (List.replicate n 'a' ++ acc) l := by
  intro n
  induction n with
  | zero => intro acc l; simp
  | succ m ih =>
    intro acc l
    rw [List.replicate_succ, List.cons_append]
    show splitOnNlNlGo ('a' :: acc) (List.replicate m 'a' ++ l) = _
    rw [ih ('a' :: acc) l, replicate_append_cons_a, List.cons_append]

theorem slsGo_nil (m : ℕ) (cur : List Char) :
    slsGo m [] cur = if cur ≠ [] then [jsTrim cur] else [] := rfl

theorem slsGo_cons (m : ℕ) (p : List Char) (ps : List (List Char)) (cur : List Char) :
    slsGo m (p :: ps) cur
      = if (cur ++ p).length > m ∧ cur ≠ [] then
          jsTrim cur :: slsGo m ps p
        else
          slsGo m ps (if cur = [] then p else cur ++ '\n' :: '\n' :: p) := rfl

/-- The counterexample body with the first paragraph's length kept symbolic:
`m + 1` letters `'a'`, a blank line, then `"bb"`.  Keeping `m` symbolic keeps
every rewrite below shallow; `c6Body` is this at `m = 1497`. -/
def c6BodyGen (m : ℕ) : List Char :=
  List.replicate (m + 1) 'a' ++ '\n' :: '\n' :: 'b' :: 'b' :: []

theorem c6BodyGen_head? (m : ℕ) : (c6BodyGen m).head? = some 'a' := by
  rw [c6BodyGen, List.replicate_succ, List.cons_append]
  rfl

theorem c6BodyGen_getLast? (m : ℕ) : (c6BodyGen m).getLast? = some 'b' := by
  rw [c6BodyGen, List.getLast?_append]
  rfl

theorem c6BodyGen_length (m : ℕ) : (c6BodyGen m).length = m + 5 := by
  rw [c6BodyGen]
  simp only [List.length_append, List.length_replicate, List.length_cons, List.length_nil]

theorem c6BodyGen_ne_nil (m : ℕ) : c6BodyGen m ≠ [] := by
  rw [c6BodyGen, List.replicate_succ, List.cons_append]
  simp

theorem c6BodyGen_trim (m : ℕ) : jsTrim (c6BodyGen m) = c6BodyGen m := by
  refine jsTrim_eq_self _ ?_ ?_
  · intro c hc
    rw [c6BodyGen_head? m] at hc
    cases hc
    decide
  · intro c hc
    rw [c6BodyGen_getLast? m] at hc
    cases hc
    decide

theorem c6SecGen_trim (m : ℕ) :
    jsTrim ('T' :: '\n' :: c6BodyGen m) = 'T' :: '\n' :: c6BodyGen m := by
  refine jsTrim_eq_self _ ?_ ?_
  · intro c hc
    cases hc
    decide
  · intro c hc
    rw [show 'T' :: '\n' :: c6BodyGen m = ['T', '\n'] ++ c6BodyGen m from rfl,
      List.getLast?_append, c6BodyGen_getLast? m] at hc
    cases hc
    decide

theorem c6_sections_gen (m : ℕ) :
    splitSectionsGo [] ('T' :: '\n' :: c6BodyGen m) = ['T' :: '\n' :: c6BodyGen m] := by
  rw [c6BodyGen, List.replicate_succ, List.cons_append]
  rw [show splitSectionsGo []
        ('T' :: '\n' :: 'a' :: (List.replicate m 'a' ++ '\n' :: '\n' :: 'b' :: 'b' :: []))
      = splitSectionsGo ['a', '\n', 'T']
          (List.replicate m 'a' ++ '\n' :: '\n' :: 'b' :: 'b' :: []) from rfl]
  rw [splitSectionsGo_skip_a]
  rw [show splitSectionsGo (List.replicate m 'a' ++ ['a', '\n', 'T'])
        ('\n' :: '\n' :: 'b' :: 'b' :: [])
      = [('b' :: 'b' :: '\n' :: '\n'
          :: (List.replicate m 'a' ++ ['a', '\n', 'T'])).reverse] from rfl]
  simp [List.reverse_replicate, List.replicate_succ, List.append_assoc]

theorem c6_lines_gen (m : ℕ) :
    jsSplitNl ('T' :: '\n' :: c6BodyGen m)
      = [['T'], List.replicate (m + 1) 'a', [], ['b', 'b']] := by
  rw [jsSplitNl, c6BodyGen, List.replicate_succ, List.cons_append]
  rw [show jsSplitNlGo []
        ('T' :: '\n' :: 'a' :: (List.replicate m 'a' ++ '\n' :: '\n' :: 'b' :: 'b' :: []))
      = ['T'] :: jsSplitNlGo ['a']
          (List.replicate m 'a' ++ '\n' :: '\n' :: 'b' :: 'b' :: []) from rfl]
  rw [jsSplitNlGo_skip_a]
  rw [show jsSplitNlGo (List.replicate m 'a' ++ ['a']) ('\n' :: '\n' :: 'b' :: 'b' :: [])
      = (List.replicate m 'a' ++ ['a']).reverse :: [] :: [['b', 'b']] from rfl]
  simp [List.reverse_replicate, List.replicate_succ, List.replicate_succ']

theorem splitOnNlNlGo_tail (acc : List Char) :
    splitOnNlNlGo acc ('\n' :: '\n' :: 'b' :: 'b' :: []) = acc.reverse :: [['b', 'b']] := rfl

theorem c6_paragraphs_gen (m : ℕ) :
    splitOnNlNl (c6BodyGen m) = [List.replicate (m + 1) 'a', ['b', 'b']] := by
  rw [splitOnNlNl, c6BodyGen]
  rw [splitOnNlNlGo_skip_a]
  rw [splitOnNlNlGo_tail]
  simp [List.reverse_replicate]

theorem c6_sectionBody_gen (m : ℕ) :
    sectionBody ('T' :: '\n' :: c6BodyGen m) = c6BodyGen m := by
  rw [sectionBody, sectionLines, c6SecGen_trim m, c6_lines_gen m]
  rw [show ([['T'], List.replicate (m + 1) 'a', [], ['b', 'b']].drop 1)
      = [List.replicate (m + 1) 'a', [], ['b', 'b']] from rfl]
  rw [show List.intercalate ['\n'] [List.replicate (m + 1) 'a', [], ['b', 'b']]
      = c6BodyGen m by
    rw [c6BodyGen]
    simp [List.intercalate, List.intersperse]]
  exact c6BodyGen_trim m

theorem c6_splitLarge_gen (m : ℕ) (hm : m + 3 ≤ 1500) :
    splitLargeSection (c6BodyGen m) 1500 = [c6BodyGen m] := by
  rw [splitLargeSection, c6_paragraphs_gen m]
  rw [slsGo_cons, if_neg (by simp), if_pos rfl]
  rw [slsGo_cons, if_neg ?hg]
  case hg =>
    rintro ⟨hgt, -⟩
    simp only [List.length_append, List.length_replicate, List.length_cons,
      List.length_nil] at hgt
    omega
  rw [if_neg (by rw [List.replicate_succ]; simp)]
  rw [slsGo_nil,
    if_pos (show (List.replicate (m + 1) 'a' ++ '\n' :: '\n' :: 'b' :: 'b' :: []) ≠ []
      from c6BodyGen_ne_nil m),
    show List.replicate (m + 1) 'a' ++ '\n' :: '\n' :: 'b' :: 'b' :: [] = c6BodyGen m
      from rfl,
    c6BodyGen_trim m]

theorem c6_chunkDocument_gen (m : ℕ) (h1 : 1496 ≤ m) (hm : m + 3 ≤ 1500) :
    (chunkDocument ('#' :: '#' :: ' ' :: 'T' :: '\n' :: c6BodyGen m) ['s']).map
        (fun c => c.content)
      = [c6BodyGen m] := by
  rw [chunkDocument]
  rw [show splitSections ('#' :: '#' :: ' ' :: 'T' :: '\n' :: c6BodyGen m)
      = [] :: splitSectionsGo [] ('T' :: '\n' :: c6BodyGen m) from rfl]
  rw [c6_sections_gen m]
  simp only [List.map_cons, List.map_nil]
  rw [show chunkSection ['s'] [] = [] from rfl]
  simp only [chunkSection]
  rw [if_neg (by rw [c6SecGen_trim m]; simp)]
  simp only [c6_sectionBody_gen m]
  rw [if_pos (by rw [c6BodyGen_length m]; omega)]
  rw [c6_splitLarge_gen m hm]
  rfl

/-- C6 (counterexample): on `c6Doc` the chunker emits exactly one chunk, whose
content is the full two-paragraph body `c6Body` of 1502 characters — it
exceeds the 1500 maximum yet is not a single paragraph, because the
accumulation guard `(currentChunk + paragraph).length > maxLength` ignores the
`'\n\n'` it appends (1498 + 2 ≤ 1500, separator not counted;
1498 + 2 + 2 = 1502). -/
theorem chunkDocument_counterexample :
    (chunkDocument c6Doc ['s']).map (fun c => c.content) = [c6Body]
    ∧ c6Body.length = 1502
    ∧ (splitOnNlNl c6Body).length = 2 := by
  have hb : c6Body = c6BodyGen 1497 := by
    rw [c6Body, c6Para1, c6BodyGen]
  have hd : c6Doc = '#' :: '#' :: ' ' :: 'T' :: '\n' :: c6BodyGen 1497 := by
    rw [c6Doc, hb]
  refine ⟨?_, ?_, ?_⟩
  · rw [hd, hb]
    exact c6_chunkDocument_gen 1497 (by omega) (by omega)
  · rw [hb, c6BodyGen_length]
  · rw [hb, c6_paragraphs_gen]
    rfl

/-- C6 (witness): the amended bound applied at a concrete small document,
whose single chunk has content `"hi"`. -/
theorem chunkDocument_content_bound_witness :
    (⟨("s:t".toList), ("hi".toList), ['s'], ['T'], []⟩ : KnowledgeChunk)
        ∈ chunkDocument ("## T\nhi".toList) ['s']
    ∧ (("hi".toList : List Char).length ≤ 1502
       ∨ ∃ sec ∈ splitSections ("## T\nhi".toList),
           ∃ p ∈ splitOnNlNl (sectionBody sec), ("hi".toList : List Char) = jsTrim p) :=
  ⟨by decide, chunkDocument_content_bound ("## T\nhi".toList) ['s']
      ⟨("s:t".toList), ("hi".toList), ['s'], ['T'], []⟩ (by decide)⟩

/-! ### Theorems for claim C4 -/

/-- C4 (counterexample): `"aa"` and `"ab"` differ in byte content yet share the
fingerprint `"2-2"` (same length, same count of non-whitespace characters in
the first 100), so a cache entry stored for `"aa"` still validates after the
corpus changed to `"ab"` — no rebuild is forced. -/
theorem checksumOf_collision :
    (['a', 'a'] : List Char) ≠ ['a', 'b']
    ∧ checksumOf ['a', 'a'] = checksumOf ['a', 'b']
    ∧ loadCache (some ⟨("1.0.0".toList), checksumOf ['a', 'a'], [], []⟩)
        (checksumOf ['a', 'b']) = some [] :=
  ⟨by decide, by decide, by decide⟩

/-- C4 (amended): a cache entry is accepted if and only if its stored
fingerprint equals the freshly computed one (that part of the claim holds);
but the fingerprint is only the byte length plus the non-whitespace count of
the first 100 characters, so any two contents agreeing on those two numbers —
e.g. any same-length change beyond position 100, or any same-length
whitespace-preserving change within it — produce the same fingerprint and do
**not** invalidate the cache. -/
theorem loadCache_checksum_spec :
    (∀ (stored : Option EmbeddingCache) (expected : List Char),
        (∃ chunks, loadCache stored expected = some chunks)
          ↔ ∃ c, stored = some c ∧ c.checksum = expected)
    ∧ (∀ c1 c2 : List Char, c1.length = c2.length →
        ((c1.take 100).filter (fun c => !c.isWhitespace)).length
          = ((c2.take 100).filter (fun c => !c.isWhitespace)).length →
        checksumOf c1 = checksumOf c2) := by
  constructor
  · intro stored expected
    constructor
    · rintro ⟨chunks, h⟩
      match stored with
      | none => simp [loadCache] at h
      | some c =>
        by_cases hc : c.checksum = expected
        · exact ⟨c, rfl, hc⟩
        · simp [loadCache, hc] at h
    · rintro ⟨c, rfl, hc⟩
      exact ⟨c.chunks, by simp [loadCache, hc]⟩
  · intro c1 c2 hlen hcnt
    simp [checksumOf, hlen, hcnt]

/-- C4 (witness): the collision half applied at two concrete same-shape
contents, and the validity-iff half applied at a concrete matching cache. -/
theorem loadCache_checksum_spec_witness :
    checksumOf ['a', 'c'] = checksumOf ['b', 'd']
    ∧ (∃ chunks, loadCache (some ⟨("1.0.0".toList), ['x'], [], []⟩) ['x'] = some chunks) :=
  ⟨loadCache_checksum_spec.2 ['a', 'c'] ['b', 'd'] (by decide) (by decide),
   (loadCache_checksum_spec.1 (some ⟨("1.0.0".toList), ['x'], [], []⟩) ['x']).mpr
     ⟨_, rfl, rfl⟩⟩

/-! ### Theorems for claim C7 -/

theorem foldl_sq_nonneg (l : List ℚ) : ∀ s : ℚ, 0 ≤ s → 0 ≤ l.foldl (fun s v => s + v * v) s := by
  induction l with
  | nil => intro s hs; simpa using hs
  | cons v t ih =>
    intro s hs
    exact ih (s + v * v) (by nlinarith [mul_self_nonneg v])

theorem sumSq_nonneg (a : List ℚ) : 0 ≤ sumSq a := foldl_sq_nonneg a 0 le_rfl

/-- C7 (counterexample): for the equal-dimension pair `[0]` (the zero vector)
and `[1]`, the denominator `sqrt 0 * sqrt 1` is zero and the unguarded JS
division produces no real number (`NaN`), not the similarity `0` the claim
asserts. -/
theorem cosineSimilarity_zero_vector :
    cosineSimilarity sqrtAt01 [0] [1] = none
    ∧ cosineSimilarity sqrtAt01 [0] [1] ≠ some 0 := by
  have h : cosineSimilarity sqrtAt01 [0] [1] = none := by
    norm_num [cosineSimilarity, sqrtAt01, sumSq, dotJS, divJS]
  exact ⟨h, by rw [h]; simp⟩

set_option linter.unusedVariables false in
/-- C7 (amended): the cosine-similarity computation does **not** guard the
norm-product denominator: when either vector is zero (zero sum of squares) the
denominator vanishes and the division yields no real result (JS `NaN`) rather
than 0; only for vectors with nonzero norms does it return
`dot / (‖a‖ * ‖b‖)`. -/
theorem cosineSimilarity_no_guard (sqrt : ℚ → ℚ) (a b : List ℚ)
    (hlen : a.length = b.length)
    (h0 : sqrt 0 = 0)
    (ha : 0 < sumSq a → 0 < sqrt (sumSq a))
    (hb : 0 < sumSq b → 0 < sqrt (sumSq b)) :
    ((sumSq a = 0 ∨ sumSq b = 0) → cosineSimilarity sqrt a b = none)
    ∧ (sumSq a ≠ 0 → sumSq b ≠ 0 →
        cosineSimilarity sqrt a b
          = some (dotJS a b / (sqrt (sumSq a) * sqrt (sumSq b)))) := by
  constructor
  · rintro (hz | hz) <;> rw [cosineSimilarity, hz, h0] <;> simp [divJS]
  · intro hza hzb
    have hpa : 0 < sqrt (sumSq a) := ha (lt_of_le_of_ne (sumSq_nonneg a) (Ne.symm hza))
    have hpb : 0 < sqrt (sumSq b) := hb (lt_of_le_of_ne (sumSq_nonneg b) (Ne.symm hzb))
    have hne : sqrt (sumSq a) * sqrt (sumSq b) ≠ 0 := ne_of_gt (mul_pos hpa hpb)
    simp [cosineSimilarity, divJS, hne]

/-- C7 (witness): the amended statement at concrete inputs — nonzero vectors
`[1]`, `[1]` get similarity `1`; the zero pair `[0]`, `[1]` gets no result. -/
theorem cosineSimilarity_no_guard_witness :
    cosineSimilarity sqrtAt01 [1] [1] = some 1
    ∧ cosineSimilarity sqrtAt01 [0] [1] = none := by
  constructor
  · have h := (cosineSimilarity_no_guard sqrtAt01 [1] [1] rfl (by norm_num [sqrtAt01])
      (fun h => by simpa [sqrtAt01] using h) (fun h => by simpa [sqrtAt01] using h)).2
      (by norm_num [sumSq]) (by norm_num [sumSq])
    rw [h]
    norm_num [dotJS, sumSq, sqrtAt01]
  · exact (cosineSimilarity_no_guard sqrtAt01 [0] [1] rfl (by norm_num [sqrtAt01])
      (fun h => by simpa [sqrtAt01] using h) (fun h => by simpa [sqrtAt01] using h)).1
      (Or.inl (by norm_num [sumSq]))

/-! ### Theorems for claim C5 -/

theorem mem_insertDesc (x z : EmbeddedChunk) (l : List EmbeddedChunk) :
    z ∈ insertDesc x l ↔ z = x ∨ z ∈ l := by
  induction l with
  | nil => simp [insertDesc]
  | cons y t ih =>
    by_cases h : simKey x ≤ simKey y
    · rw [insertDesc, if_pos h]
      simp only [List.mem_cons, ih]
      tauto
    · rw [insertDesc, if_neg h]
      simp only [List.mem_cons]

theorem insertDesc_pairwise (x : EmbeddedChunk) (l : List EmbeddedChunk)
    (h : l.Pairwise (fun p q => simKey q ≤ simKey p)) :
    (insertDesc x l).Pairwise (fun p q => simKey q ≤ simKey p) := by
  induction l with
  | nil => simp [insertDesc]
  | cons y t ih =>
    rw [List.pairwise_cons] at h
    by_cases hxy : simKey x ≤ simKey y
    · rw [insertDesc, if_pos hxy, List.pairwise_cons]
      refine ⟨?_, ih h.2⟩
      intro z hz
      rcases (mem_insertDesc x z t).mp hz with rfl | hzt
      · exact hxy
      · exact h.1 z hzt
    · rw [insertDesc, if_neg hxy, List.pairwise_cons]
      push_neg at hxy
      refine ⟨?_, by rw [List.pairwise_cons]; exact h⟩
      intro z hz
      rcases List.mem_cons.mp hz with rfl | hzt
      · exact le_of_lt hxy
      · exact le_trans (h.1 z hzt) (le_of_lt hxy)

theorem foldl_insertDesc_pairwise (l : List EmbeddedChunk) :
    ∀ acc : List EmbeddedChunk, acc.Pairwise (fun p q => simKey q ≤ simKey p) →
      (l.foldl (fun acc x => insertDesc x acc) acc).Pairwise
        (fun p q => simKey q ≤ simKey p) := by
  induction l with
  | nil => intro acc hacc; simpa using hacc
  | cons x xs ih =>
    intro acc hacc
    exact ih (insertDesc x acc) (insertDesc_pairwise x acc hacc)

theorem sortDesc_pairwise (l : List EmbeddedChunk) :
    (sortDesc l).Pairwise (fun p q => simKey q ≤ simKey p) :=
  foldl_insertDesc_pairwise l [] (by simp)

theorem mem_foldl_insertDesc (l : List EmbeddedChunk) :
    ∀ (acc : List EmbeddedChunk) (z : EmbeddedChunk),
      z ∈ l.foldl (fun acc x => insertDesc x acc) acc ↔ z ∈ acc ∨ z ∈ l := by
  induction l with
  | nil => intro acc z; simp
  | cons x xs ih =>
    intro acc z
    rw [List.foldl_cons, ih (insertDesc x acc) z, mem_insertDesc]
    simp only [List.mem_cons]
    tauto

theorem mem_sortDesc (l : List EmbeddedChunk) (z : EmbeddedChunk) :
    z ∈ sortDesc l ↔ z ∈ l := by
  rw [sortDesc, mem_foldl_insertDesc]
  simp

theorem filter_insertDesc (q : ℚ) (x : EmbeddedChunk) (l : List EmbeddedChunk)
    (hl : l.Pairwise (fun p q' => simKey q' ≤ simKey p)) :
    (insertDesc x l).filter (fun c => decide (simKey c = q))
      = if simKey x = q
        then l.filter (fun c => decide (simKey c = q)) ++ [x]
        else l.filter (fun c => decide (simKey c = q)) := by
  induction l with
  | nil =>
    by_cases hx : simKey x = q <;> simp [insertDesc, List.filter, hx]
  | cons y t ih =>
    rw [List.pairwise_cons] at hl
    by_cases hxy : simKey x ≤ simKey y
    · rw [insertDesc, if_pos hxy]
      by_cases hy : simKey y = q
      · by_cases hx : simKey x = q <;> simp [List.filter_cons, hy, hx, ih hl.2]
      · by_cases hx : simKey x = q <;> simp [List.filter_cons, hy, hx, ih hl.2]
    · rw [insertDesc, if_neg hxy]
      push_neg at hxy
      by_cases hx : simKey x = q
      · have htail : (y :: t).filter (fun c => decide (simKey c = q)) = [] := by
          rw [List.filter_eq_nil_iff]
          intro z hz
          have hzy : simKey z ≤ simKey y := by
            rcases List.mem_cons.mp hz with rfl | hzt
            · exact le_rfl
            · exact hl.1 z hzt
          have : simKey z < simKey x := lt_of_le_of_lt hzy hxy
          simp only [decide_eq_true_eq]
          intro hzq
          rw [hzq, ← hx] at this
          exact lt_irrefl _ this
        simp [List.filter_cons, hx, htail]
      · rw [List.filter_cons]
        simp [hx]

theorem filter_foldl_insertDesc (q : ℚ) (l : List EmbeddedChunk) :
    ∀ acc : List EmbeddedChunk, acc.Pairwise (fun p q' => simKey q' ≤ simKey p) →
      (l.foldl (fun acc x => insertDesc x acc) acc).filter (fun c => decide (simKey c = q))
        = acc.filter (fun c => decide (simKey c = q))
            ++ l.filter (fun c => decide (simKey c = q)) := by
  induction l with
  | nil => intro acc _; simp
  | cons x xs ih =>
    intro acc hacc
    rw [List.foldl_cons, ih (insertDesc x acc) (insertDesc_pairwise x acc hacc),
      filter_insertDesc q x acc hacc, List.filter_cons]
    by_cases hx : simKey x = q
    · simp [hx]
    · simp [hx]

theorem sortDesc_filter (q : ℚ) (l : List EmbeddedChunk) :
    (sortDesc l).filter (fun c => decide (simKey c = q))
      = l.filter (fun c => decide (simKey c = q)) := by
  rw [sortDesc, filter_foldl_insertDesc q l [] (by simp)]
  simp

/-- The retrieval contract for an arbitrary real-valued (`ℚ`) score
assignment: at most `k` results; every result a scored copy of an index
chunk; non-increasing key order; per-key stability (the sorted sequence
restricted to any fixed key equals the input restricted to it); empty index
to empty output.  This covers exactly the runs in which every similarity is
an actual number; the claim theorem below adds the bridge to the code's
`cosineSimilarity` and the `NaN` caveat. -/
theorem retrieveRelevantChunks_spec (sim : EmbeddedChunk → ℚ)
    (index : List EmbeddedChunk) (k : ℕ) :
    (retrieveRelevantChunks sim index k).length ≤ k
    ∧ (∀ c ∈ retrieveRelevantChunks sim index k, ∃ c0 ∈ index, c = setSim sim c0)
    ∧ (retrieveRelevantChunks sim index k).Pairwise (fun p q' => simKey q' ≤ simKey p)
    ∧ (∀ q : ℚ, (sortDesc (index.map (setSim sim))).filter (fun c => decide (simKey c = q))
        = (index.map (setSim sim)).filter (fun c => decide (simKey c = q)))
    ∧ (index = [] → retrieveRelevantChunks sim index k = []) := by
  refine ⟨List.length_take_le _ _, ?_, ?_, ?_, ?_⟩
  · intro c hc
    have hmem : c ∈ sortDesc (index.map (setSim sim)) :=
      List.mem_of_mem_take hc
    have : c ∈ index.map (setSim sim) := (mem_sortDesc _ c).mp hmem
    obtain ⟨c0, hc0, rfl⟩ := List.mem_map.mp this
    exact ⟨c0, hc0, rfl⟩
  · exact (sortDesc_pairwise _).sublist (List.take_sublist _ _)
  · exact fun q => sortDesc_filter q _
  · rintro rfl
    simp [retrieveRelevantChunks, sortDesc]

/-- C5 (counterexample): the ordering clause fails on reachable inputs.  With
the two-chunk index `[c5ZeroVecChunk, c5UnitVecChunk]` and the (unit) query
embedding `[1, 0]`, the code's scoring map assigns the zero-vector chunk the
similarity `NaN` (the unguarded division, modelled `none`) and the unit
chunk the similarity `1` — and since `?? 0` does not catch `NaN`, the
comparator returns `NaN` on that pair, so the ES2019 sort order is
implementation-defined; both possible arrangements of the two results
violate "ordered by non-increasing similarity", because `NaN` compares
false with every number.  So `retrieve(q, 2)` cannot satisfy the claimed
ordering on this input, whichever order the implementation produces. -/
theorem retrieveRelevantChunks_nan_counterexample :
    scoreChunks sqrtAt01 [1, 0] [c5ZeroVecChunk, c5UnitVecChunk]
      = [{ c5ZeroVecChunk with similarity := none },
         { c5UnitVecChunk with similarity := some 1 }]
    ∧ ¬ sortedBySimDesc [{ c5ZeroVecChunk with similarity := none },
         { c5UnitVecChunk with similarity := some 1 }]
    ∧ ¬ sortedBySimDesc [{ c5UnitVecChunk with similarity := some 1 },
         { c5ZeroVecChunk with similarity := none }] := by
  refine ⟨?_, ?_, ?_⟩
  · have hz : cosineSimilarity sqrtAt01 [1, 0] ((0 : ℚ) :: (0 : ℚ) :: []) = none := by
      norm_num [cosineSimilarity, sqrtAt01, sumSq, dotJS, divJS]
    have hu : cosineSimilarity sqrtAt01 [1, 0] ((1 : ℚ) :: (0 : ℚ) :: []) = some 1 := by
      norm_num [cosineSimilarity, sqrtAt01, sumSq, dotJS, divJS]
    simp only [scoreChunks, List.map_cons, List.map_nil, c5ZeroVecChunk, c5UnitVecChunk]
    rw [hz, hu]
  · intro h
    simp [sortedBySimDesc, simLeJS] at h
  · intro h
    simp [sortedBySimDesc, simLeJS] at h

/-- C5 (corrected): whenever the code's similarity computation yields an
actual number for every index chunk — `cosineSimilarity` returns `some (r c)`
for each chunk `c`, which holds exactly when no zero-norm embedding is
involved — the scoring map the code runs coincides with the `ℚ`-valued
assignment `r`, and the retrieval contract holds in full: `retrieve(q, k)`
returns at most `k` results, every result is a scored copy of an index
chunk, the results are ordered by non-increasing similarity in the JS sense
(`simLeJS`, which on actual numbers is the usual order), equal-similarity
chunks keep their original corpus order (the ES2019 stable-sort guarantee:
the sorted sequence restricted to any fixed similarity equals the input so
restricted), and an empty index yields the empty sequence.  Without that
hypothesis the ordering clause is false — see the counterexample above. -/
theorem retrieveRelevantChunks_corrected (sqrt : ℚ → ℚ) (qe : List ℚ)
    (index : List EmbeddedChunk) (k : ℕ) (r : EmbeddedChunk → ℚ)
    (h : ∀ c ∈ index, cosineSimilarity sqrt qe c.embedding = some (r c)) :
    scoreChunks sqrt qe index = index.map (setSim r)
    ∧ (retrieveRelevantChunks r index k).length ≤ k
    ∧ (∀ c ∈ retrieveRelevantChunks r index k, ∃ c0 ∈ index, c = setSim r c0)
    ∧ sortedBySimDesc (retrieveRelevantChunks r index k)
    ∧ (∀ v : ℚ, (sortDesc (index.map (setSim r))).filter (fun c => decide (simKey c = v))
        = (index.map (setSim r)).filter (fun c => decide (simKey c = v)))
    ∧ (index = [] → retrieveRelevantChunks r index k = []) := by
  obtain ⟨h1, h2, h3, h4, h5⟩ := retrieveRelevantChunks_spec r index k
  refine ⟨?_, h1, h2, ?_, h4, h5⟩
  · unfold scoreChunks setSim
    exact List.map_congr_left fun c hc => by rw [h c hc]
  · refine List.Pairwise.imp_of_mem ?_ h3
    intro a b ha hb hab
    obtain ⟨a0, _, rfl⟩ := h2 a ha
    obtain ⟨b0, _, rfl⟩ := h2 b hb
    simp only [setSim, simKey, Option.getD_some] at hab
    simp [setSim, simLeJS, hab]

/-- C5 (witness): the corrected theorem at concrete inputs — one unit-vector
chunk, the query embedding `[1, 0]`, limit 1: the hypothesis holds with the
constant score 1, the code's scoring map equals the abstract one, the single
result list is non-increasingly ordered, and the bound holds. -/
theorem retrieveRelevantChunks_corrected_witness :
    scoreChunks sqrtAt01 [1, 0] [c5UnitVecChunk]
      = [c5UnitVecChunk].map (setSim (fun _ => 1))
    ∧ (retrieveRelevantChunks (fun _ => 1) [c5UnitVecChunk] 1).length ≤ 1
    ∧ sortedBySimDesc (retrieveRelevantChunks (fun _ => 1) [c5UnitVecChunk] 1) := by
  have h := retrieveRelevantChunks_corrected sqrtAt01 [1, 0] [c5UnitVecChunk] 1
    (fun _ => 1) (by
      intro c hc
      rw [List.mem_singleton.mp hc]
      norm_num [c5UnitVecChunk, cosineSimilarity, sqrtAt01, sumSq, dotJS, divJS])
  exact ⟨h.1, h.2.1, h.2.2.2.1⟩

/-! ### Theorem for claim C3 -/

/-- C3 (code bug): with a stored cache whose fingerprint matches, the cached
variant (src/prompt/agent.ts) behaves exactly as the claim and the
repository's own OPTIMIZATIONS.md describe — it adopts the cached chunks and
makes zero embedding-service calls — but the variant actually wired into the
entry point (src/rag/index.ts `createKnowledgeIndex`, imported by
src/index.ts) makes its batched embedding calls unconditionally: it never
even looks at the cache. -/
theorem buildIndex_ignores_cache (embed : List (List Char) → List (List ℚ))
    (stored : EmbeddingCache) (checksum : List Char) (chunks : List KnowledgeChunk)
    (hmatch : stored.checksum = checksum) (hne : chunks ≠ []) :
    buildIndexCached embed (some stored) checksum chunks = (stored.chunks, 0)
    ∧ 0 < (buildIndex embed chunks).2 := by
  constructor
  · simp [buildIndexCached, loadCache, hmatch]
  · match chunks, hne with
    | c :: rest, _ =>
      simp [buildIndex, batches100, batches100Go]

/-- C3 (witness): a concrete matching cache — the cached build returns the
stored (empty) chunk set with zero calls, while the wired build on a one-chunk
corpus performs a (positive number of) embedding call(s). -/
theorem buildIndex_ignores_cache_witness :
    buildIndexCached (fun _ => []) (some ⟨("1.0.0".toList), ['x'], [], []⟩) ['x']
        [⟨[], [], [], [], []⟩] = ([], 0)
    ∧ 0 < (buildIndex (fun _ => []) [⟨[], [], [], [], []⟩]).2 :=
  ⟨(buildIndex_ignores_cache (fun _ => []) ⟨("1.0.0".toList), ['x'], [], []⟩ ['x']
      [⟨[], [], [], [], []⟩] rfl (by simp)).1,
   (buildIndex_ignores_cache (fun _ => []) ⟨("1.0.0".toList), ['x'], [], []⟩ ['x']
      [⟨[], [], [], [], []⟩] rfl (by simp)).2⟩

/-! ### Theorem for claim C10 -/

/-- C10: `validateResponse` is total by construction (every branch of the
embedded function returns an `AIResponse`; the source wraps everything in
`try/catch`), and when the JSON parse (with both extraction methods), the
plain-text fallback, and the regex answer extraction all fail, it returns
exactly the fixed sentinel answer with an empty references list; the
orchestrator's delivery path then sends that sentinel through the normal
message path — the cleaned-up sentinel text with no references suffix — as if
it were a real answer, rather than treating the attempt as failed. -/
theorem validateResponse_sentinel (parseJson : List Char → Option JsonPayload)
    (codeBlockMatch answerMatch : List Char → Option (List Char))
    (cleanup : List Char → List Char) (content : List Char)
    (hparse : tryParseResponse parseJson codeBlockMatch content = none)
    (hplain : content = [] ∨ content.contains braceOpen = true
      ∨ content.contains braceClose = true)
    (hregex : answerMatch content = none) :
    validateResponse parseJson codeBlockMatch answerMatch content
      = { answer := wonkyAnswer, references := [] }
    ∧ respondMessage cleanup parseJson codeBlockMatch answerMatch content
      = cleanup (jsTrim wonkyAnswer) := by
  have hfall : ¬ (content ≠ [] ∧ content.contains braceOpen = false
      ∧ content.contains braceClose = false) := by
    rintro ⟨h1, h2, h3⟩
    rcases hplain with h | h | h
    · exact h1 h
    · rw [h2] at h; cases h
    · rw [h3] at h; cases h
  have hv : validateResponse parseJson codeBlockMatch answerMatch content
      = { answer := wonkyAnswer, references := [] } := by
    rw [validateResponse, hparse, if_neg hfall, hregex]
  refine ⟨hv, ?_⟩
  rw [respondMessage]
  rw [hv]
  simp [referencesText, uniqueRefs, dedupKeepFirst]

/-- C10 (witness): every parsing stage failing on the empty generation payload
— the sentinel is produced and delivered through the normal send path. -/
theorem validateResponse_sentinel_witness :
    validateResponse (fun _ => none) (fun _ => none) (fun _ => none) []
      = { answer := wonkyAnswer, references := [] }
    ∧ respondMessage id (fun _ => none) (fun _ => none) (fun _ => none) []
      = id (jsTrim wonkyAnswer) :=
  validateResponse_sentinel (fun _ => none) (fun _ => none) (fun _ => none) id []
    rfl (Or.inl rfl) rfl

/-- C2 (witness): the boundary characterization applied at the first accepted
wei amount. -/
theorem tipAccepted_boundary_witness :
    tipAccepted 158333333333334 3000 = true :=
  (tipAccepted_boundary.1 158333333333334).mpr (by norm_num)
